import Mathlib

/-!
Shallow embedding of the MinecraftServerBot repository:
`bedrock_server_api.py` (class `BedrockServerAPI`) and
`minecraft-telegram-notifier.py` (player tracking and event handlers).

Strings are modelled as `List Char`.  Python `re.search` applied to the
concrete patterns appearing in the source is modelled by dedicated
leftmost-match functions over string literals: every pattern in the source
is a sequence of literal fragments separated by lazy groups `(.*?)` (plus
one trailing greedy `(.*)` and one alternation `(?:Player|Client)`), so
`re.search`'s leftmost-then-shortest semantics reduces to "first occurrence
of the leading literal, then first occurrence of the following literal in
the remaining suffix".  Log lines contain no newline (they come from
`str.splitlines`), so `.` matches every character of a line.
-/

namespace MCBot

/-- Python `str.strip()`: remove whitespace from both ends. -/
def pyStrip (l : List Char) : List Char :=
  ((l.dropWhile Char.isWhitespace).reverse.dropWhile Char.isWhitespace).reverse

/-- Leftmost occurrence of the literal `pat` in `s`: the part of `s` strictly
before the occurrence together with the part strictly after it
(`re.search` on a literal fragment). `none` when `pat` does not occur. -/
def splitFirst (pat : List Char) : List Char → Option (List Char × List Char)
  | [] => if pat.isEmpty then some ([], []) else none
  | c :: t =>
    if pat.isPrefixOf (c :: t) then some ([], (c :: t).drop pat.length)
    else (splitFirst pat t).map (fun pr => (c :: pr.1, pr.2))

/-- Leftmost position where literal `p1` or literal `p2` matches (the
alternation `(?:Player|Client) ` of the source patterns), returning the
text before the occurrence and the text after the matched literal. -/
def splitFirst2 (p1 p2 : List Char) : List Char → Option (List Char × List Char)
  | [] => none
  | c :: t =>
    if p1.isPrefixOf (c :: t) then some ([], (c :: t).drop p1.length)
    else if p2.isPrefixOf (c :: t) then some ([], (c :: t).drop p2.length)
    else (splitFirst2 p1 p2 t).map (fun pr => (c :: pr.1, pr.2))

/-- `re.search(r"Player connected: (.*?)(?:,|$)", s)`, group 1: text after
the first `"Player connected: "` up to the first comma or end of line. -/
def mJoin1 (s : List Char) : Option (List Char) :=
  (splitFirst ("Player connected: ".toList) s).map
    (fun pr => pr.2.takeWhile (fun c => c != ','))

/-- `re.search(r"Player (.*?) has connected", s)`, group 1. -/
def mJoin2 (s : List Char) : Option (List Char) :=
  (splitFirst ("Player ".toList) s).bind
    (fun pr => (splitFirst (" has connected".toList) pr.2).map (fun q => q.1))

/-- `re.search(r"(.*?) joined the game", s)`, group 1: text before the first
occurrence of `" joined the game"`. -/
def mJoin3 (s : List Char) : Option (List Char) :=
  (splitFirst (" joined the game".toList) s).map (fun pr => pr.1)

/-- `re.search(r"(?:Player|Client) (.*?) connected", s)`, group 1. -/
def mJoin4 (s : List Char) : Option (List Char) :=
  (splitFirst2 ("Player ".toList) ("Client ".toList) s).bind
    (fun pr => (splitFirst (" connected".toList) pr.2).map (fun q => q.1))

/-- `re.search(r"\[INFO\].*? (.*?) joined the game", s)`, group 1: after the
first `"[INFO]"`, skip lazily to the first space, then take the text up to
the first subsequent `" joined the game"`. -/
def mJoin5 (s : List Char) : Option (List Char) :=
  (splitFirst ("[INFO]".toList) s).bind (fun pr =>
    (splitFirst ([' ']) pr.2).bind (fun q =>
      (splitFirst (" joined the game".toList) q.2).map (fun r => r.1)))

/-- `re.search(r"Player disconnected: (.*?)(?:,|$)", s)`, group 1. -/
def mLeave1 (s : List Char) : Option (List Char) :=
  (splitFirst ("Player disconnected: ".toList) s).map
    (fun pr => pr.2.takeWhile (fun c => c != ','))

/-- `re.search(r"Player (.*?) has disconnected", s)`, group 1. -/
def mLeave2 (s : List Char) : Option (List Char) :=
  (splitFirst ("Player ".toList) s).bind
    (fun pr => (splitFirst (" has disconnected".toList) pr.2).map (fun q => q.1))

/-- `re.search(r"(.*?) left the game", s)`, group 1. -/
def mLeave3 (s : List Char) : Option (List Char) :=
  (splitFirst (" left the game".toList) s).map (fun pr => pr.1)

/-- `re.search(r"(?:Player|Client) (.*?) disconnected", s)`, group 1. -/
def mLeave4 (s : List Char) : Option (List Char) :=
  (splitFirst2 ("Player ".toList) ("Client ".toList) s).bind
    (fun pr => (splitFirst (" disconnected".toList) pr.2).map (fun q => q.1))

/-- `re.search(r"\[INFO\].*? (.*?) left the game", s)`, group 1. -/
def mLeave5 (s : List Char) : Option (List Char) :=
  (splitFirst ("[INFO]".toList) s).bind (fun pr =>
    (splitFirst ([' ']) pr.2).bind (fun q =>
      (splitFirst (" left the game".toList) q.2).map (fun r => r.1)))

/-- `re.search(r"\[CHAT\] (.*?): (.*)", s)`, groups 1 and 2. -/
def mChat1 (s : List Char) : Option (List Char × List Char) :=
  (splitFirst ("[CHAT] ".toList) s).bind (fun pr =>
    (splitFirst (": ".toList) pr.2).map (fun q => (q.1, q.2)))

/-- `re.search(r"\[INFO\] (.*?) says: (.*)", s)`, groups 1 and 2. -/
def mChat2 (s : List Char) : Option (List Char × List Char) :=
  (splitFirst ("[INFO] ".toList) s).bind (fun pr =>
    (splitFirst (" says: ".toList) pr.2).map (fun q => (q.1, q.2)))

/-- `re.search(r"<(.*?)> (.*)", s)`, groups 1 and 2. -/
def mChat3 (s : List Char) : Option (List Char × List Char) :=
  (splitFirst (['<']) s).bind (fun pr =>
    (splitFirst ("> ".toList) pr.2).map (fun q => (q.1, q.2)))

/-- The `player_join_patterns` list (identical in `_monitor_log_file` and
`_get_players_from_log`), in source order. -/
def joinPatterns : List (List Char → Option (List Char)) :=
  [mJoin1, mJoin2, mJoin3, mJoin4, mJoin5]

/-- The `player_leave_patterns` list, in source order. -/
def leavePatterns : List (List Char → Option (List Char)) :=
  [mLeave1, mLeave2, mLeave3, mLeave4, mLeave5]

/-- The `chat_patterns` list of `_monitor_log_file`, in source order. -/
def chatPatterns : List (List Char → Option (List Char × List Char)) :=
  [mChat1, mChat2, mChat3]

/-- A `LogEvent` produced by the monitor loop / triggered through
`_trigger_event` (the `'player_join'`, `'player_leave'`, `'chat_message'`,
`'server_start'`, `'server_stop'` event kinds). -/
inductive Event
  | playerJoin (name : List Char)
  | playerLeave (name : List Char)
  | chatMessage (name msg : List Char)
  | serverStart
  | serverStop
  deriving DecidableEq

/-- The per-kind loop of `_monitor_log_file`
(`for pattern in patterns: match = pattern.search(line); if match:
player_name = match.group(1).strip(); if player_name: trigger; break`):
the first pattern, in order, whose match yields a non-empty stripped name
triggers an event and stops the loop for that kind; a pattern matching
with an empty stripped name does not stop the loop. -/
def firstName : List (List Char → Option (List Char)) → List Char → Option (List Char)
  | [], _ => none
  | p :: rest, l =>
    match p l with
    | some g => if (pyStrip g).isEmpty then firstName rest l else some (pyStrip g)
    | none => firstName rest l

/-- The chat loop of `_monitor_log_file`: the first chat pattern whose match
yields both a non-empty stripped name and a non-empty stripped message
triggers and stops the loop. -/
def firstChat : List (List Char → Option (List Char × List Char)) → List Char →
    Option (List Char × List Char)
  | [], _ => none
  | p :: rest, l =>
    match p l with
    | some (g1, g2) =>
      if (pyStrip g1).isEmpty || (pyStrip g2).isEmpty then firstChat rest l
      else some (pyStrip g1, pyStrip g2)
    | none => firstChat rest l

/-- Per-line event extraction of `_monitor_log_file`: the line is stripped
and skipped if empty; otherwise the join-pattern loop, the leave-pattern
loop and the chat-pattern loop each run independently on the line, in that
order, each triggering at most one event. -/
def processLine (l : List Char) : List Event :=
  let l' := pyStrip l
  if l'.isEmpty then []
  else
    (match firstName joinPatterns l' with
      | some n => [Event.playerJoin n]
      | none => []) ++
    (match firstName leavePatterns l' with
      | some n => [Event.playerLeave n]
      | none => []) ++
    (match firstChat chatPatterns l' with
      | some nm => [Event.chatMessage nm.1 nm.2]
      | none => [])

/-- One line of the connection scan of `_get_players_from_log`: every join
pattern is tried (no break); each match with a non-empty stripped name is
appended to `connected_players` unless already present. -/
def scanJoin (acc : List (List Char)) (l : List Char) : List (List Char) :=
  joinPatterns.foldl
    (fun acc p =>
      match p l with
      | some g =>
        let n := pyStrip g
        if !n.isEmpty && !acc.contains n then acc ++ [n] else acc
      | none => acc)
    acc

/-- One line of the disconnection scan of `_get_players_from_log`: every
leave pattern is tried; each match with a non-empty stripped name is
appended to `disconnected_players` (duplicates kept). -/
def scanLeave (acc : List (List Char)) (l : List Char) : List (List Char) :=
  leavePatterns.foldl
    (fun acc p =>
      match p l with
      | some g =>
        let n := pyStrip g
        if !n.isEmpty then acc ++ [n] else acc
      | none => acc)
    acc

/-- `_get_players_from_log` applied to the scanned window of log lines:
collect `connected_players` and `disconnected_players` over all lines, then
`[p for p in connected_players if p not in disconnected_players]`. -/
def getPlayersFromLog (lines : List (List Char)) : List (List Char) :=
  let connected := lines.foldl scanJoin []
  let disconnected := lines.foldl scanLeave []
  connected.filter (fun p => !disconnected.contains p)

/-- `get_online_players`: extends an empty list with the log-derived players
and deduplicates via `list(set(...))` (modelled keeping first occurrences;
only membership in the result is stated below, as Python's set order is
arbitrary). -/
def getOnlinePlayers (lines : List (List Char)) : List (List Char) :=
  (getPlayersFromLog lines).dedup

/-- Outcome of the `pgrep -f bedrock_server` probe in `is_server_running`:
it found the process, it exited non-zero (`CalledProcessError`, the code
falls through), or it raised some other exception (e.g. `pgrep` missing),
which escapes to the outer handler. -/
inductive PgrepR
  | found
  | notFound
  | raised
  deriving DecidableEq

/-- Outcome of the `screen -ls` probe: output containing `"minecraft"`,
output without it, a `CalledProcessError`/`FileNotFoundError` (both caught,
the code falls through), or some other exception escaping to the outer
handler. -/
inductive ScreenR
  | hasMinecraft
  | noMinecraft
  | cmdFailed
  | raised
  deriving DecidableEq

/-- Outcome of the UDP port-bind probe: bind succeeded (no listener), bind
raised `socket.error` (port in use), or some other exception escaping to
the outer handler. -/
inductive PortR
  | bindOk
  | bindErr
  | raised
  deriving DecidableEq

/-- `is_server_running`, with the three probe outcomes supplied as inputs.
`pgrep` found ⇒ `true`; otherwise a screen listing containing
`"minecraft"` ⇒ `true`; otherwise a successful bind ⇒ `false` and a
`socket.error` ⇒ `true`.  Any exception not caught locally reaches the
outer `except Exception` handler, which returns `true` ("default to
assuming the server is running to prevent accidental restarts"). -/
def isServerRunning (p : PgrepR) (s : ScreenR) (q : PortR) : Bool :=
  match p with
  | .found => true
  | .raised => true
  | .notFound =>
    match s with
    | .hasMinecraft => true
    | .raised => true
    | _ =>
      match q with
      | .bindOk => false
      | .bindErr => true
      | .raised => true

/-- A probe counts as inconclusive when it neither affirmed nor denied that
the server runs: for `pgrep`, a non-zero exit or an exception; for the
screen listing, anything but a listing containing `"minecraft"`; for the
port bind, an exception (a completed bind attempt is always conclusive). -/
def pgrepInconclusive (p : PgrepR) : Prop := p = .notFound ∨ p = .raised

/-- See `pgrepInconclusive`. -/
def screenInconclusive (s : ScreenR) : Prop :=
  s = .noMinecraft ∨ s = .cmdFailed ∨ s = .raised

/-- See `pgrepInconclusive`. -/
def portInconclusive (q : PortR) : Prop := q = .raised

/-- Environment of one `start_server` call: the initial `is_server_running`
probe, whether each of the three launch commands (`screen`, `tmux`, direct
`Popen`) runs without raising, and the `is_server_running` probe taken
after the 5-second settle sleep. -/
structure StartEnv where
  running0 : Bool
  screenOk : Bool
  tmuxOk : Bool
  directOk : Bool
  postRunning : Bool
  deriving DecidableEq

/-- The `success` flag of `start_server` after the three fallback launch
attempts: `screen`, then `tmux` if that failed, then a direct spawn. -/
def launchOk (e : StartEnv) : Bool :=
  if e.screenOk then true
  else if e.tmuxOk then true
  else e.directOk

/-- `start_server`: returns the boolean result together with the list of
events fired via `_trigger_event`.  Already running ⇒ `True` with no event;
otherwise after a successful launch command the code sleeps and re-probes:
probe false ⇒ `success = False`; probe true ⇒ fire `'server_start'`. -/
def startServer (e : StartEnv) : Bool × List Event :=
  if e.running0 then (true, [])
  else if launchOk e then
    if e.postRunning then (true, [Event.serverStart])
    else (false, [])
  else (false, [])

/-- Environment of one `stop_server` call: the initial probe, the ten
`is_server_running` probes of the graceful 10-second wait loop, whether
`pkill -TERM` ran without raising and the probe after its 3-second wait,
and the same for `pkill -KILL` with its 1-second wait. -/
structure StopEnv where
  running0 : Bool
  gracefulProbes : List Bool
  termOk : Bool
  afterTermRunning : Bool
  killOk : Bool
  afterKillRunning : Bool

/-- `stop_server`: result together with the `'server_stop'` events fired.
Not running ⇒ `True`, no event.  Stage 1 sends the in-band `stop` command
(its own result is ignored by the source) and polls up to ten times,
returning at the first probe reporting not-running.  Stage 2 runs
`pkill -TERM` (an exception is caught and the code falls through) and
re-probes.  Stage 3 runs `pkill -KILL`: an exception returns `False`;
otherwise the final probe decides. -/
def stopServer (e : StopEnv) : Bool × List Event :=
  if !e.running0 then (true, [])
  else if e.gracefulProbes.contains false then (true, [Event.serverStop])
  else if e.termOk && !e.afterTermRunning then (true, [Event.serverStop])
  else if !e.killOk then (false, [])
  else if !e.afterKillRunning then (true, [Event.serverStop])
  else (false, [])

/-- What one iteration of the `while True` loop of `_monitor_log_file`
observes: the log file is missing (`os.path.exists` false), `os.path.getsize`
raises, or the file exists with the given `content` and — if a read is
attempted — the read either succeeds or raises (`readOk`). -/
inductive Obs
  | missing
  | statErr
  | poll (content : List Char) (readOk : Bool)

/-- The mutable loop state of `_monitor_log_file`: the `file_size` tail
position and the `consecutive_errors` counter. -/
structure MState where
  file_size : Nat
  consecutive_errors : Nat
  deriving DecidableEq

/-- `max_consecutive_errors` in `_monitor_log_file`. -/
def maxConsecutiveErrors : Nat := 5

/-- One iteration of the `_monitor_log_file` loop, returning the new state
and the delta read this iteration (if any).  Missing file ⇒ position reset
to 0.  Stat error ⇒ state unchanged.  Otherwise: `current_size < file_size`
⇒ truncation reset to 0; then if `current_size` exceeds the (possibly
reset) position, the file is opened, the reader seeks to the position and
reads to end; on success the position advances to `current_size` and the
error counter clears; on failure the counter increments and, at
`max_consecutive_errors`, the position is reset to 0. -/
def monitorStep (s : MState) (o : Obs) : MState × Option (List Char) :=
  match o with
  | .missing => (⟨0, s.consecutive_errors⟩, none)
  | .statErr => (s, none)
  | .poll c readOk =>
    let cs := c.length
    let fs := if cs < s.file_size then 0 else s.file_size
    if cs > fs then
      if readOk then (⟨cs, 0⟩, some (c.drop fs))
      else if maxConsecutiveErrors ≤ s.consecutive_errors + 1 then (⟨0, 0⟩, none)
      else (⟨fs, s.consecutive_errors + 1⟩, none)
    else (⟨fs, s.consecutive_errors⟩, none)

/-- Iterate `monitorStep` over a sequence of observations, collecting the
deltas read. -/
def runMonitor (s : MState) : List Obs → MState × List (List Char)
  | [] => (s, [])
  | o :: os =>
    let step := monitorStep s o
    let rest := runMonitor step.1 os
    (rest.1, step.2.toList ++ rest.2)

/-- One operation applied to the `active_players` set of the notifier:
a `'player_join'` event (`handle_player_join`), a `'player_leave'` event
(`handle_player_leave`), or one cycle of `sync_player_list` with the given
ground-truth player list. -/
inductive RegOp
  | join (n : String)
  | leave (n : String)
  | sync (g : List String)

/-- `handle_player_join`: add the name unless already tracked. -/
def applyJoin (s : Finset String) (n : String) : Finset String :=
  if n ∈ s then s else insert n s

/-- `handle_player_leave`: remove the name if tracked. -/
def applyLeave (s : Finset String) (n : String) : Finset String :=
  if n ∈ s then s.erase n else s

/-- One `sync_player_list` cycle body: first remove every tracked player not
in `server_players`, then add every server player not tracked. -/
def applySync (s : Finset String) (g : List String) : Finset String :=
  let kept := s.filter (fun p => p ∈ g)
  g.foldl (fun acc p => if p ∈ acc then acc else insert p acc) kept

/-- Apply one registry operation. -/
def applyOp (s : Finset String) : RegOp → Finset String
  | .join n => applyJoin s n
  | .leave n => applyLeave s n
  | .sync g => applySync s g

/-- Apply a finite sequence of registry operations in order. -/
def applyOps (s : Finset String) (ops : List RegOp) : Finset String :=
  ops.foldl applyOp s

/-- How one operation marks a given name: a join of that name marks it
present, a leave marks it absent, and a reconciliation marks it present
exactly when the ground truth contains it (every sync marks every name). -/
def markOf (op : RegOp) (n : String) : Option Bool :=
  match op with
  | .join m => if m = n then some true else none
  | .leave m => if m = n then some false else none
  | .sync g => some (decide (n ∈ g))

/-- The mark left by the last operation of `ops` that marks `n`, if any. -/
def lastMark (ops : List RegOp) (n : String) : Option Bool :=
  (ops.filterMap (fun op => markOf op n)).getLast?

/-- The keys of the `event_callbacks` dict set up in
`BedrockServerAPI.__init__`. -/
def eventKinds : List String :=
  ["player_join", "player_leave", "chat_message", "server_start", "server_stop"]

/-- The `event_callbacks` dict: callbacks per event-kind string.  The dict's
keys are fixed at `eventKinds` by `__init__` and never change, so it is
modelled as a total function that is empty off the known kinds. -/
def Registry (α : Type) : Type := String → List α

/-- The initial `event_callbacks` dict: every known kind maps to `[]`. -/
def initRegistry (α : Type) : Registry α := fun _ => []

/-- `BedrockServerAPI.on` (the source name `on` is a reserved token in
Lean): if the kind is a key of `event_callbacks`, append the callback to
that kind's list and return `True`; otherwise leave the dict untouched and
return `False`. -/
def onCallback {α : Type} (reg : Registry α) (et : String) (cb : α) : Registry α × Bool :=
  if et ∈ eventKinds then
    (fun k => if k = et then reg k ++ [cb] else reg k, true)
  else (reg, false)

/-- Register a list of (kind, callback) pairs via `onCallback`, in order. -/
def foldOns {α : Type} (regs : List (String × α)) : Registry α :=
  regs.foldl (fun r p => (onCallback r p.1 p.2).1) (initRegistry α)

/-- The `for callback in self.event_callbacks[event_type]` loop of
`_trigger_event`: each callback is invoked inside `try/except`, so a
callback that raises yields its fault (logged in the source) and the loop
continues with the remaining callbacks.  A callback is modelled as a
function from the event data to `Except`, `.error` meaning it raised. -/
def runCallbacks {D F : Type} : List (D → Except F Unit) → D → List (Except F Unit)
  | [], _ => []
  | cb :: rest, d =>
    (match cb d with
      | .ok u => Except.ok u
      | .error f => Except.error f) :: runCallbacks rest d

/-- `_trigger_event`: when the kind is a key of `event_callbacks`, run every
registered callback on the data (faults isolated); otherwise do nothing.
The function is total: no callback fault propagates to the caller. -/
def triggerEvent {D F : Type} (reg : Registry (D → Except F Unit)) (et : String)
    (d : D) : List (Except F Unit) :=
  if et ∈ eventKinds then runCallbacks (reg et) d else []

/-- The truncation test of `_monitor_log_file`
(`if current_size < file_size`): only an iteration that stats the file and
observes a size strictly below the stored position detects truncation. -/
def isTruncationObs (s : MState) : Obs → Bool
  | .poll c _ => decide (c.length < s.file_size)
  | _ => false

/-- `true` when no iteration of the trace detects truncation. -/
def monitorNoTruncation (s : MState) : List Obs → Bool
  | [] => true
  | o :: os => !isTruncationObs s o && monitorNoTruncation (monitorStep s o).1 os

/-- `true` exactly on events produced through the `'player_join'` kind. -/
def isJoinEvent : Event → Bool
  | .playerJoin _ => true
  | _ => false

/-- `true` exactly on events produced through the `'player_leave'` kind. -/
def isLeaveEvent : Event → Bool
  | .playerLeave _ => true
  | _ => false

/-- `true` exactly on events produced through the `'chat_message'` kind. -/
def isChatEvent : Event → Bool
  | .chatMessage _ _ => true
  | _ => false

/-- C1 counterexample: the line
`"Alice joined the game left the game"` matches both a join pattern and a
leave pattern, and the monitor loop of `_monitor_log_file` fires one event
of each kind for it — the `break` statements only stop the pattern loop
within one kind, they do not short-circuit the remaining kinds.  So a
single line produces events of two different kinds, refuting the claimed
at-most-one-event contract. -/
theorem C1_counterexample :
    processLine ("Alice joined the game left the game".toList) =
      [Event.playerJoin ("Alice".toList),
        Event.playerLeave ("Alice joined the game".toList)] ∧
    ¬ (processLine ("Alice joined the game left the game".toList)).length ≤ 1 := by
  constructor
  · decide
  · decide

/-- C1 amended: for every log line, the extractor fires at most one event
of each kind — within each of the three kinds (join, leave, chat) the
patterns are tried in order and the first hit stops that kind's loop — but
the kinds are tested independently, so one line may fire up to one event
per kind (and hence up to three events of different kinds). -/
theorem C1_per_kind_at_most_one (l : List Char) :
    (processLine l).countP isJoinEvent ≤ 1 ∧
    (processLine l).countP isLeaveEvent ≤ 1 ∧
    (processLine l).countP isChatEvent ≤ 1 := by
  unfold processLine
  rcases hj : firstName joinPatterns (pyStrip l) with _ | n <;>
    rcases hl : firstName leavePatterns (pyStrip l) with _ | m <;>
      rcases hc : firstChat chatPatterns (pyStrip l) with _ | nm <;>
        cases he : (pyStrip l).isEmpty <;>
          simp [he, hj, hl, hc, List.countP_append, List.countP_cons,
            isJoinEvent, isLeaveEvent, isChatEvent]

/-- C2 counterexample: the scanned window
`["Alice joined the game", "Alice left the game", "Alice joined the game"]`
has a join as the last matching occurrence for `Alice` (the third line
matches a join pattern and no leave pattern), yet `_get_players_from_log`
returns the empty list: the code filters out every name that matched a
leave pattern anywhere in the window, regardless of order, so a player who
left and then rejoined is not reported as online. -/
theorem C2_counterexample :
    scanJoin [] ("Alice joined the game".toList) = [("Alice".toList)] ∧
    scanLeave [] ("Alice joined the game".toList) = [] ∧
    getPlayersFromLog
      [("Alice joined the game".toList), ("Alice left the game".toList),
        ("Alice joined the game".toList)] = [] := by
  refine ⟨by decide, by decide, by decide⟩

/-- C3: whenever the `pgrep` process-table scan, the `screen -ls`
multiplexer inspection and the UDP port-bind probe are all inconclusive,
`is_server_running` returns `true` — either a local fall-through reaches a
`true` branch, or the exception escapes to the outer handler whose comment
reads "Default to assuming the server is running to prevent accidental
restarts". -/
theorem C3_inconclusive_reports_running (p : PgrepR) (s : ScreenR) (q : PortR)
    (hp : pgrepInconclusive p) (hs : screenInconclusive s)
    (hq : portInconclusive q) : isServerRunning p s q = true := by
  cases p <;> cases s <;> cases q <;>
    simp_all [pgrepInconclusive, screenInconclusive, portInconclusive,
      isServerRunning]

/-- Witness for `C3_inconclusive_reports_running` at a concrete triple of
inconclusive probe outcomes. -/
theorem C3_witness :
    isServerRunning PgrepR.notFound ScreenR.noMinecraft PortR.raised = true :=
  C3_inconclusive_reports_running PgrepR.notFound ScreenR.noMinecraft
    PortR.raised (Or.inl rfl) (Or.inl rfl) rfl

/-- C4: `start_server` on an already-running server is a no-op returning
`True` with no event; when a launch command succeeds but the post-settle
`is_server_running` probe reports `false`, it returns `False` with no
event; and it returns `True` firing `'server_start'` exactly when a launch
command succeeded and the confirmation probe reported `true`. -/
theorem C4_start_confirmation (e : StartEnv) :
    (e.running0 = true → startServer e = (true, [])) ∧
    (e.running0 = false → launchOk e = true → e.postRunning = false →
      startServer e = (false, [])) ∧
    (e.running0 = false →
      (startServer e = (true, [Event.serverStart]) ↔
        launchOk e = true ∧ e.postRunning = true)) := by
  obtain ⟨r, s, t, d, p⟩ := e
  cases r <;> cases s <;> cases t <;> cases d <;> cases p <;> decide

/-- Witness for `C4_start_confirmation`: the `screen` launch command
succeeds but the post-settle probe reports not-running, so `start_server`
fails with no event. -/
theorem C4_witness :
    startServer ⟨false, true, false, false, false⟩ = (false, []) :=
  (C4_start_confirmation ⟨false, true, false, false, false⟩).2.1 rfl rfl rfl

/-- C10: registering a callback under a kind that is not a key of
`event_callbacks` returns `False` and leaves the registry untouched;
registering under a known kind returns `True`, appends the callback to
that kind's list, and leaves every other kind's list unchanged. -/
theorem C10_on_frame (α : Type) (reg : Registry α) (et : String) (cb : α) :
    (et ∉ eventKinds → onCallback reg et cb = (reg, false)) ∧
    (et ∈ eventKinds →
      (onCallback reg et cb).2 = true ∧
      (onCallback reg et cb).1 et = reg et ++ [cb] ∧
      ∀ k, k ≠ et → (onCallback reg et cb).1 k = reg k) := by
  constructor
  · intro h
    simp [onCallback, h]
  · intro h
    refine ⟨by simp [onCallback, h], by simp [onCallback, h], ?_⟩
    intro k hk
    simp [onCallback, h, hk]

/-- Witness for `C10_on_frame`: registering under `'player_join'` (a known
kind) succeeds and appends; registering under `'bogus'` is rejected and
the registry is returned unchanged. -/
theorem C10_witness :
    onCallback (initRegistry Nat) "bogus" 0 = (initRegistry Nat, false) ∧
    (onCallback (initRegistry Nat) "player_join" 0).2 = true ∧
    (onCallback (initRegistry Nat) "player_join" 0).1 "player_join" =
      initRegistry Nat "player_join" ++ [0] :=
  ⟨(C10_on_frame Nat (initRegistry Nat) "bogus" 0).1 (by decide),
    ((C10_on_frame Nat (initRegistry Nat) "player_join" 0).2 (by decide)).1,
    ((C10_on_frame Nat (initRegistry Nat) "player_join" 0).2 (by decide)).2.1⟩

lemma contains_false_of_all_true (l : List Bool) (h : ∀ b ∈ l, b = true) :
    l.contains false = false := by
  have hm : false ∉ l := fun hmem => by simpa using h false hmem
  simpa using hm

/-- C8: if the server is running and the graceful stop command leaves every
one of the ten wait-loop probes reporting running, and the `pkill -TERM`
stage also fails to bring it down (the command raised, or the post-wait
probe still reports running), but after `pkill -KILL` the probe reports
not-running, then `stop_server` returns `True` and fires exactly one
`'server_stop'` event.  Moreover the first stage whose post-wait probe
reports not-running short-circuits everything after it, and if even the
forceful stage leaves the probe reporting running, `stop_server` returns
`False` with no event. -/
theorem C8_stop_stages (e : StopEnv) :
    (e.running0 = true → (∀ b ∈ e.gracefulProbes, b = true) →
      (e.termOk = false ∨ e.afterTermRunning = true) →
      e.killOk = true → e.afterKillRunning = false →
      stopServer e = (true, [Event.serverStop])) ∧
    (e.running0 = true → e.gracefulProbes.contains false = true →
      stopServer e = (true, [Event.serverStop])) ∧
    (e.running0 = true → (∀ b ∈ e.gracefulProbes, b = true) →
      e.termOk = true → e.afterTermRunning = false →
      stopServer e = (true, [Event.serverStop])) ∧
    (e.running0 = true → (∀ b ∈ e.gracefulProbes, b = true) →
      (e.termOk = false ∨ e.afterTermRunning = true) →
      e.killOk = true → e.afterKillRunning = true →
      stopServer e = (false, [])) := by
  obtain ⟨r, gp, tk, atr, kk, akr⟩ := e
  refine ⟨?_, ?_, ?_, ?_⟩
  · intro h0 hall hterm hk hak
    have hm : false ∉ gp := fun hmem => by simpa using hall false hmem
    rcases hterm with ht | ht <;> subst_vars <;> simp [stopServer, hm]
  · intro h0 hcf
    have hmem : false ∈ gp := by simpa using hcf
    subst_vars
    simp [stopServer, hmem]
  · intro h0 hall ht hat
    have hm : false ∉ gp := fun hmem => by simpa using hall false hmem
    subst_vars
    simp [stopServer, hm]
  · intro h0 hall hterm hk hak
    have hm : false ∉ gp := fun hmem => by simpa using hall false hmem
    rcases hterm with ht | ht <;> subst_vars <;> simp [stopServer, hm]

/-- Witness for `C8_stop_stages`: graceful stop and `SIGTERM` both leave
the server running, the forceful kill succeeds, and `stop_server` reports
success with exactly one `'server_stop'` event. -/
theorem C8_witness :
    stopServer ⟨true, List.replicate 10 true, true, true, true, false⟩ =
      (true, [Event.serverStop]) :=
  (C8_stop_stages ⟨true, List.replicate 10 true, true, true, true, false⟩).1
    rfl (by decide) (Or.inr rfl) rfl rfl

/-- C5 counterexample: with the tail position at byte 10 and no truncation
observed, an iteration that finds the log file missing resets the position
to 0 — so truncation is not the only condition that resets or decreases
the tail position, refuting the claim.  (`_monitor_log_file` also resets
the position after `max_consecutive_errors` failed reads; see the C6
counterexample.) -/
theorem C5_counterexample :
    (monitorStep ⟨10, 0⟩ Obs.missing).1.file_size = 0 ∧
    isTruncationObs ⟨10, 0⟩ Obs.missing = false := by
  exact ⟨rfl, rfl⟩

/-- C5 amended: the tail position decreases only when the file is missing,
when truncation is detected (observed size below the stored position), or
when a failed read brings the consecutive-error counter to
`max_consecutive_errors`; detected truncation with a successful read
re-reads the whole file from offset 0 and sets the position to the new
size; absent truncation a successful read advances the position exactly to
the observed size; a failed read below the error threshold leaves the
position unchanged and increments the error counter; and a stat error
leaves the state untouched. -/
theorem C5_position_resets (s : MState) (o : Obs) :
    ((monitorStep s o).1.file_size < s.file_size →
      o = Obs.missing ∨ isTruncationObs s o = true ∨
        (∃ c, o = Obs.poll c false ∧
          maxConsecutiveErrors ≤ s.consecutive_errors + 1)) ∧
    (∀ c, isTruncationObs s (Obs.poll c true) = true →
      (monitorStep s (Obs.poll c true)).1.file_size = c.length ∧
      (c ≠ [] → (monitorStep s (Obs.poll c true)).2 = some c)) ∧
    (∀ c, s.file_size ≤ c.length →
      (monitorStep s (Obs.poll c true)).1.file_size = c.length) ∧
    (∀ c, s.file_size < c.length →
      s.consecutive_errors + 1 < maxConsecutiveErrors →
      (monitorStep s (Obs.poll c false)).1 =
        ⟨s.file_size, s.consecutive_errors + 1⟩) ∧
    (monitorStep s Obs.statErr).1 = s := by
  refine ⟨?_, ?_, ?_, ?_, rfl⟩
  · intro hlt
    cases o with
    | missing => exact Or.inl rfl
    | statErr => simp [monitorStep] at hlt
    | poll c r =>
      by_cases htr : c.length < s.file_size
      · exact Or.inr (Or.inl (by simp [isTruncationObs, htr]))
      · right; right
        cases r with
        | false =>
          by_cases hth : maxConsecutiveErrors ≤ s.consecutive_errors + 1
          · exact ⟨c, rfl, hth⟩
          · exfalso
            by_cases hgt : s.file_size < c.length <;>
              simp [monitorStep, htr, hgt, hth] at hlt
        | true =>
          exfalso
          by_cases hgt : s.file_size < c.length <;>
            simp [monitorStep, htr, hgt] at hlt
  · intro c htr
    have h : c.length < s.file_size := by simpa [isTruncationObs] using htr
    rcases Nat.eq_zero_or_pos c.length with hc0 | hcpos
    · have hcnil : c = [] := List.length_eq_zero.mp hc0
      subst hcnil
      exact ⟨by simp [monitorStep, h], fun hne => absurd rfl hne⟩
    · refine ⟨by simp [monitorStep, h, hcpos], fun _ => ?_⟩
      simp [monitorStep, h, hcpos]
  · intro c hle
    by_cases hgt : s.file_size < c.length
    · simp [monitorStep, Nat.not_lt.mpr hle, hgt]
    · have heq : c.length = s.file_size := by omega
      simp [monitorStep, heq]
  · intro c hlt hth
    have htr : ¬ c.length < s.file_size := by omega
    have hth' : ¬ maxConsecutiveErrors ≤ s.consecutive_errors + 1 := by omega
    simp [monitorStep, htr, hlt, hth']

/-- Witness for `C5_position_resets`: a successful read at position 1 of a
2-byte file advances the position to 2. -/
theorem C5_witness :
    (monitorStep ⟨1, 0⟩ (Obs.poll ("ab".toList) true)).1.file_size =
      ("ab".toList).length :=
  (C5_position_resets ⟨1, 0⟩ (Obs.poll ("ab".toList) true)).2.2.1
    ("ab".toList) (by decide)

/-- The observation trace of the C6 counterexample: one successful read of
a 2-byte file, then five failed reads while the file has grown to 4 bytes
(reaching `max_consecutive_errors` and resetting the position to 0), then
one successful read.  The file only ever grows. -/
def c6Trace : List Obs :=
  [Obs.poll ("ab".toList) true, Obs.poll ("abcd".toList) false,
    Obs.poll ("abcd".toList) false, Obs.poll ("abcd".toList) false,
    Obs.poll ("abcd".toList) false, Obs.poll ("abcd".toList) false,
    Obs.poll ("abcd".toList) true]

/-- C6 counterexample: on `c6Trace` no iteration detects truncation, yet
the concatenation of the deltas read is `"ababcd"` while the bytes
appended since monitoring began (initial position 0) are `"abcd"`: the
error-threshold reset makes the tailer re-read bytes, so absent truncation
the polls do **not** partition the appended bytes exactly once each. -/
theorem C6_counterexample :
    monitorNoTruncation ⟨0, 0⟩ c6Trace = true ∧
    (runMonitor ⟨0, 0⟩ c6Trace).2.flatten = "ababcd".toList ∧
    "ababcd".toList ≠ ("abcd".toList).drop 0 := by
  exact ⟨by decide, by decide, by decide⟩

lemma isPre_drop_append (a l : List Char) (fs : Nat) (h : a <+: l)
    (hfs : fs ≤ a.length) : a.drop fs ++ l.drop a.length = l.drop fs := by
  obtain ⟨t, rfl⟩ := h
  rw [List.drop_append_of_le_length hfs]
  simp

lemma head_isPre_getLast (x : List Char) (xs : List (List Char))
    (h : List.Chain' (fun a b => a <+: b) (x :: xs)) :
    x <+: (x :: xs).getLast (List.cons_ne_nil x xs) := by
  induction xs generalizing x with
  | nil => simp
  | cons y ys ih =>
    obtain ⟨hxy, ht⟩ := List.chain'_cons.mp h
    have hy := ih y ht
    rw [List.getLast_cons (List.cons_ne_nil y ys)]
    exact hxy.trans hy

/-- C6 amended: when the file is never truncated (each successive content
extends the previous one, so every observed size is at least the stored
position) and every read succeeds — in particular no run of
`max_consecutive_errors` failed reads resets the position, and the file
never goes missing — the deltas read by successive poll iterations
concatenate exactly to the bytes appended since monitoring began: each
poll seeks to the stored position, reads to end and advances the position
to the observed size, so no byte is read twice and none is skipped. -/
theorem C6_partition (c0 : List Char) (cs : List (List Char))
    (hchain : List.Chain' (fun a b => a <+: b) (c0 :: cs)) :
    (runMonitor ⟨c0.length, 0⟩
        (cs.map (fun c => Obs.poll c true))).2.flatten =
      ((c0 :: cs).getLast (List.cons_ne_nil c0 cs)).drop c0.length := by
  induction cs generalizing c0 with
  | nil => simp [runMonitor]
  | cons c rest ih =>
    obtain ⟨hpre, ht⟩ := List.chain'_cons.mp hchain
    have hle : c0.length ≤ c.length := hpre.length_le
    have hlast : (c0 :: c :: rest).getLast (List.cons_ne_nil c0 (c :: rest)) =
        (c :: rest).getLast (List.cons_ne_nil c rest) :=
      List.getLast_cons (List.cons_ne_nil c rest)
    have hcl : c <+: (c :: rest).getLast (List.cons_ne_nil c rest) :=
      head_isPre_getLast c rest ht
    have hrec := ih c ht
    by_cases hgt : c0.length < c.length
    · have hstep : monitorStep ⟨c0.length, 0⟩ (Obs.poll c true) =
          (⟨c.length, 0⟩, some (c.drop c0.length)) := by
        simp [monitorStep, Nat.not_lt.mpr hle, hgt]
      rw [List.map_cons, runMonitor, hstep, hlast]
      simp only [Option.toList_some, List.singleton_append, List.flatten_cons]
      rw [hrec]
      exact isPre_drop_append c _ c0.length hcl hle
    · have heq : c.length = c0.length := by omega
      have hstep : monitorStep ⟨c0.length, 0⟩ (Obs.poll c true) =
          (⟨c0.length, 0⟩, none) := by
        simp [monitorStep, heq]
      rw [List.map_cons, runMonitor, hstep, hlast]
      simp only [Option.toList_none, List.nil_append]
      rw [← heq]
      exact hrec

/-- Witness for `C6_partition` on the growing contents
`"a"`, `"ab"`, `"abcd"`. -/
theorem C6_witness :
    (runMonitor ⟨("a".toList).length, 0⟩
        ([("ab".toList), ("abcd".toList)].map
          (fun c => Obs.poll c true))).2.flatten =
      ((("a".toList) :: [("ab".toList), ("abcd".toList)]).getLast
          (List.cons_ne_nil _ _)).drop ("a".toList).length :=
  C6_partition ("a".toList) [("ab".toList), ("abcd".toList)]
    (List.chain'_cons.mpr ⟨by decide,
      List.chain'_cons.mpr ⟨by decide, List.chain'_singleton _⟩⟩)

lemma mem_foldInsert (g : List String) (acc : Finset String) (n : String) :
    n ∈ g.foldl (fun acc p => if p ∈ acc then acc else insert p acc) acc ↔
      n ∈ acc ∨ n ∈ g := by
  induction g generalizing acc with
  | nil => simp
  | cons p rest ih =>
    rw [List.foldl_cons]
    by_cases hp : p ∈ acc
    · rw [if_pos hp, ih]
      constructor
      · rintro (h | h)
        · exact Or.inl h
        · exact Or.inr (List.mem_cons_of_mem p h)
      · rintro (h | h)
        · exact Or.inl h
        · rcases List.mem_cons.mp h with rfl | h2
          · exact Or.inl hp
          · exact Or.inr h2
    · rw [if_neg hp, ih]
      simp only [Finset.mem_insert, List.mem_cons]
      tauto

lemma mem_applySync (s : Finset String) (g : List String) (n : String) :
    n ∈ applySync s g ↔ n ∈ g := by
  simp only [applySync]
  rw [mem_foldInsert]
  simp only [Finset.mem_filter]
  tauto

lemma mem_applyOp (s : Finset String) (op : RegOp) (n : String) :
    n ∈ applyOp s op ↔
      (markOf op n = some true ∨ (markOf op n = none ∧ n ∈ s)) := by
  cases op with
  | join m =>
    simp only [applyOp, applyJoin, markOf]
    by_cases hmn : m = n
    · subst hmn
      by_cases hm : m ∈ s <;> simp [hm]
    · have hnm : n ≠ m := Ne.symm hmn
      by_cases hm : m ∈ s <;> simp [hm, hmn, hnm]
  | leave m =>
    simp only [applyOp, applyLeave, markOf]
    by_cases hmn : m = n
    · subst hmn
      by_cases hm : m ∈ s <;> simp [hm]
    · have hnm : n ≠ m := Ne.symm hmn
      by_cases hm : m ∈ s <;> simp [hm, hmn, hnm]
  | sync g =>
    simp only [applyOp, markOf]
    rw [mem_applySync]
    by_cases hg : n ∈ g <;> simp [hg]

lemma lastMark_cons (op : RegOp) (ops : List RegOp) (n : String) :
    lastMark (op :: ops) n =
      match lastMark ops n with
      | some b => some b
      | none => markOf op n := by
  unfold lastMark
  rw [List.filterMap_cons]
  cases hm : markOf op n with
  | none =>
    cases h2 : (ops.filterMap (fun op => markOf op n)).getLast? <;>
      simp [h2, hm]
  | some b =>
    cases hl : ops.filterMap (fun op => markOf op n) with
    | nil => simp [hl]
    | cons x xs =>
      rw [List.getLast?_cons_cons]
      cases h2 : (x :: xs).getLast? with
      | none => simp at h2
      | some y => simp [h2]

lemma mem_applyOps (ops : List RegOp) (s : Finset String) (n : String) :
    n ∈ applyOps s ops ↔
      (lastMark ops n = some true ∨ (lastMark ops n = none ∧ n ∈ s)) := by
  induction ops generalizing s with
  | nil => simp [applyOps, lastMark]
  | cons op rest ih =>
    rw [show applyOps s (op :: rest) = applyOps (applyOp s op) rest from rfl,
      ih, lastMark_cons, mem_applyOp]
    cases hl : lastMark rest n with
    | some b => simp
    | none => simp

/-- C7: starting from the empty `active_players` set, after any finite
sequence of interleaved `handle_player_join`, `handle_player_leave` and
`sync_player_list` operations, the registry contains a name exactly when
the last operation marking that name marked it present (a join of that
name, or its presence in the last reconciliation's ground truth), and
contains no name whose last marking operation marked it absent (a leave,
or absence from the last reconciliation's ground truth). -/
theorem C7_registry_last_op (ops : List RegOp) (n : String) :
    n ∈ applyOps ∅ ops ↔ lastMark ops n = some true := by
  rw [mem_applyOps]
  simp

lemma runCallbacks_eq_map {D F : Type} (cbs : List (D → Except F Unit))
    (d : D) : runCallbacks cbs d = cbs.map (fun cb => cb d) := by
  induction cbs with
  | nil => rfl
  | cons cb rest ih =>
    rw [runCallbacks, ih, List.map_cons]
    congr 1
    cases cb d <;> rfl

lemma foldOns_from {α : Type} (regs : List (String × α)) (r : Registry α)
    (et : String) (h : et ∈ eventKinds) :
    (regs.foldl (fun r p => (onCallback r p.1 p.2).1) r) et =
      r et ++ (regs.filter (fun p => p.1 == et)).map Prod.snd := by
  induction regs generalizing r with
  | nil => simp
  | cons q rest ih =>
    rw [List.foldl_cons, ih]
    by_cases hq : q.1 ∈ eventKinds
    · by_cases he : q.1 = et
      · subst he
        simp [onCallback, hq, List.filter_cons]
      · have hne : et ≠ q.1 := Ne.symm he
        simp [onCallback, hq, he, hne, List.filter_cons]
    · have hne : q.1 ≠ et := fun he => hq (he ▸ h)
      simp [onCallback, hq, hne, List.filter_cons]

/-- C9: for every event published through `_trigger_event` under a known
kind, the callbacks registered for that kind via `on` are all invoked, in
registration order, each exactly once; a callback that raises contributes
its fault in place (caught and logged in the source) without removing any
later callback's invocation, and `_trigger_event` returns normally — no
callback fault propagates to the publisher. -/
theorem C9_bus_order_isolation (D F : Type)
    (regs : List (String × (D → Except F Unit))) (et : String) (d : D)
    (h : et ∈ eventKinds) :
    triggerEvent (foldOns regs) et d =
      (regs.filter (fun p => p.1 == et)).map (fun p => p.2 d) := by
  unfold triggerEvent
  rw [if_pos h, runCallbacks_eq_map]
  unfold foldOns
  rw [foldOns_from regs (initRegistry _) et h]
  simp [initRegistry, List.map_map]

/-- Witness for `C9_bus_order_isolation`: two callbacks registered under
`'player_join'`, the first of which raises; both are invoked in order and
the raising one does not suppress the second. -/
theorem C9_witness :
    triggerEvent (foldOns
      [("player_join", fun _ => Except.error "boom"),
        ("player_join", fun _ => Except.ok ())]) "player_join" (0 : Nat) =
      [Except.error "boom", Except.ok ()] := by
  rw [C9_bus_order_isolation Nat String _ "player_join" 0 (by decide)]
  rfl

/-- The name a single pattern contributes for a line in
`_get_players_from_log`: the stripped group of a successful match, when
non-empty. -/
def patName (p : List Char → Option (List Char)) (l : List Char) :
    Option (List Char) :=
  (p l).bind (fun g => if (pyStrip g).isEmpty then none else some (pyStrip g))

/-- All names a single line contributes to `connected_players` (every join
pattern is tried; `_get_players_from_log` has no `break`). -/
def lineJoinNames (l : List Char) : List (List Char) :=
  joinPatterns.filterMap (fun p => patName p l)

/-- All names a single line contributes to `disconnected_players`. -/
def lineLeaveNames (l : List Char) : List (List Char) :=
  leavePatterns.filterMap (fun p => patName p l)

lemma mem_scanJoinFold (ps : List (List Char → Option (List Char)))
    (l : List Char) (acc : List (List Char)) (n : List Char) :
    n ∈ ps.foldl
      (fun acc p =>
        match p l with
        | some g =>
          let m := pyStrip g
          if !m.isEmpty && !acc.contains m then acc ++ [m] else acc
        | none => acc)
      acc ↔
      n ∈ acc ∨ n ∈ ps.filterMap (fun p => patName p l) := by
  induction ps generalizing acc with
  | nil => simp
  | cons p rest ih =>
    rw [List.foldl_cons, List.filterMap_cons]
    cases hp : p l with
    | none => rw [ih]; simp [patName, hp]
    | some g =>
      rw [ih]
      by_cases hg : pyStrip g = []
      · simp [patName, hp, hg]
      · by_cases hc : pyStrip g ∈ acc
        · have himp : n = pyStrip g → n ∈ acc := fun h => h ▸ hc
          simp [patName, hp, hg, hc]
          tauto
        · simp [patName, hp, hg, hc, or_assoc]


lemma mem_scanLeaveFold (ps : List (List Char → Option (List Char)))
    (l : List Char) (acc : List (List Char)) (n : List Char) :
    n ∈ ps.foldl
      (fun acc p =>
        match p l with
        | some g =>
          let m := pyStrip g
          if !m.isEmpty then acc ++ [m] else acc
        | none => acc)
      acc ↔
      n ∈ acc ∨ n ∈ ps.filterMap (fun p => patName p l) := by
  induction ps generalizing acc with
  | nil => simp
  | cons p rest ih =>
    rw [List.foldl_cons, List.filterMap_cons]
    cases hp : p l with
    | none => rw [ih]; simp [patName, hp]
    | some g =>
      rw [ih]
      by_cases hg : pyStrip g = []
      · simp [patName, hp, hg]
      · simp [patName, hp, hg, or_assoc]

lemma mem_scanJoin (acc : List (List Char)) (l n : List Char) :
    n ∈ scanJoin acc l ↔ n ∈ acc ∨ n ∈ lineJoinNames l :=
  mem_scanJoinFold joinPatterns l acc n

lemma mem_scanLeave (acc : List (List Char)) (l n : List Char) :
    n ∈ scanLeave acc l ↔ n ∈ acc ∨ n ∈ lineLeaveNames l :=
  mem_scanLeaveFold leavePatterns l acc n

lemma mem_connectedFold (lines : List (List Char)) (acc : List (List Char))
    (n : List Char) :
    n ∈ lines.foldl scanJoin acc ↔
      n ∈ acc ∨ ∃ l ∈ lines, n ∈ lineJoinNames l := by
  induction lines generalizing acc with
  | nil => simp
  | cons l rest ih =>
    rw [List.foldl_cons, ih, mem_scanJoin]
    constructor
    · rintro ((h | h) | ⟨x, hx, hp⟩)
      · exact Or.inl h
      · exact Or.inr ⟨l, List.mem_cons_self l rest, h⟩
      · exact Or.inr ⟨x, List.mem_cons_of_mem l hx, hp⟩
    · rintro (h | ⟨x, hx, hp⟩)
      · exact Or.inl (Or.inl h)
      · rcases List.mem_cons.mp hx with rfl | h2
        · exact Or.inl (Or.inr hp)
        · exact Or.inr ⟨x, h2, hp⟩

lemma mem_disconnectedFold (lines : List (List Char))
    (acc : List (List Char)) (n : List Char) :
    n ∈ lines.foldl scanLeave acc ↔
      n ∈ acc ∨ ∃ l ∈ lines, n ∈ lineLeaveNames l := by
  induction lines generalizing acc with
  | nil => simp
  | cons l rest ih =>
    rw [List.foldl_cons, ih, mem_scanLeave]
    constructor
    · rintro ((h | h) | ⟨x, hx, hp⟩)
      · exact Or.inl h
      · exact Or.inr ⟨l, List.mem_cons_self l rest, h⟩
      · exact Or.inr ⟨x, List.mem_cons_of_mem l hx, hp⟩
    · rintro (h | ⟨x, hx, hp⟩)
      · exact Or.inl (Or.inl h)
      · rcases List.mem_cons.mp hx with rfl | h2
        · exact Or.inl (Or.inr hp)
        · exact Or.inr ⟨x, h2, hp⟩

/-- C2 amended: a name is in the result of `_get_players_from_log` exactly
when it matched some join pattern (with a non-empty stripped group) on
some line of the scanned window **and** matched no leave pattern on any
line of the window — the order of joins and leaves within the window is
irrelevant, so a player who left and later rejoined inside the window is
still excluded. -/
theorem C2_amended_membership (lines : List (List Char)) (n : List Char) :
    n ∈ getPlayersFromLog lines ↔
      (∃ l ∈ lines, n ∈ lineJoinNames l) ∧
        ¬ ∃ l ∈ lines, n ∈ lineLeaveNames l := by
  simp only [getPlayersFromLog]
  rw [List.mem_filter]
  constructor
  · rintro ⟨hc, hd⟩
    have hc' := (mem_connectedFold lines [] n).mp hc
    simp only [List.not_mem_nil, false_or] at hc'
    refine ⟨hc', ?_⟩
    intro hex
    have hin : n ∈ lines.foldl scanLeave [] :=
      (mem_disconnectedFold lines [] n).mpr (Or.inr hex)
    have hnd : n ∉ lines.foldl scanLeave [] := by simpa using hd
    exact hnd hin
  · rintro ⟨hj, hnl⟩
    refine ⟨(mem_connectedFold lines [] n).mpr (Or.inr hj), ?_⟩
    have hnot : n ∉ lines.foldl scanLeave [] := by
      intro hmem
      exact hnl
        (((mem_disconnectedFold lines [] n).mp hmem).resolve_left (by simp))
    simpa using hnot

end MCBot
